import Mathlib

/-!
Shallow embedding of `minesweeper.py` (classes `Minesweeper`, `Sentence`,
`MinesweeperAI`).  Python sets of cells become `Finset (ℕ × ℕ)`, Python ints
become `Int`, the knowledge list becomes `List Sentence`, and Python's
unordered set iteration in `add_knowledge` step 6 is linearized by a fixed
lexicographic sort (the final state is iteration-order independent because
each global mark is applied at most once per cell).  Fallible operations
(Python exceptions) return `Option`; the unbounded mine-placement loop takes
explicit fuel and an injected random stream.
-/

/-- Cells are 0-indexed (row, column) coordinate pairs, byte-for-byte the
Python tuples used throughout `minesweeper.py`. -/
abbrev Cell := Nat × Nat

/-! ### Board model (`class Minesweeper`) -/

/-- Python list indexing `l[i]` with an `int` index: a nonnegative index in
range reads directly, a negative index `i` with `-len l ≤ i` reads
`l[len l + i]` (Python negative indexing), and anything else raises
`IndexError`, modelled as `none`. -/
def pyGet {α : Type} (l : List α) (i : Int) : Option α :=
  if 0 ≤ i then l.get? i.toNat
  else if 0 ≤ i + l.length then l.get? (i + l.length).toNat
  else none

/-- The `self.board` grid built in `Minesweeper.__init__`: `board[i][j]` is
`True` exactly when `(i, j)` is in the mine set (the placement loop keeps
this invariant: it sets `board[i][j] = True` whenever it adds `(i, j)` to
`self.mines`). -/
def boardOf (height width : Nat) (mines : Finset Cell) : List (List Bool) :=
  (List.range height).map fun i =>
    (List.range width).map fun j => decide ((i, j) ∈ mines)

/-- `Minesweeper.is_mine`: `i, j = cell; return self.board[i][j]`.  A Python
`IndexError` is modelled as `none`; note `cell` carries `Int` coordinates
because Python callers may pass negative ones. -/
def Minesweeper.is_mine (height width : Nat) (mines : Finset Cell)
    (cell : Int × Int) : Option Bool :=
  (pyGet (boardOf height width mines) cell.1).bind fun row => pyGet row cell.2

/-- The full grid `[0,H) × [0,W)` as a finset. -/
def gridFinset (height width : Nat) : Finset Cell :=
  Finset.range height ×ˢ Finset.range width

/-- The mine-placement loop of `Minesweeper.__init__`:
`while len(self.mines) != mines: i = randrange(height); j = randrange(width);
if not board[i][j]: add (i,j)`.  `picks` is the injected random stream
(step `t` draws `picks t`, reduced mod height/width exactly as `randrange`
bounds its result), `fuel` bounds the number of iterations we run, and
`none` means the loop was still running when the fuel ran out. -/
def placeMines (height width target : Nat) (picks : Nat → Nat × Nat) :
    Nat → Nat → Finset Cell → Option (Finset Cell)
  | 0, _, _ => none
  | fuel + 1, t, mines =>
    if mines.card = target then some mines
    else
      let i := (picks t).1 % height
      let j := (picks t).2 % width
      let mines' := if (i, j) ∈ mines then mines else insert (i, j) mines
      placeMines height width target picks fuel (t + 1) mines'

/-- Termination of board generation: some number of iterations suffices for
the placement loop to return a mine set. -/
def placeTerminates (height width target : Nat) (picks : Nat → Nat × Nat) : Prop :=
  ∃ fuel board, placeMines height width target picks fuel 0 ∅ = some board

/-! ### Constraint sentences (`class Sentence`) -/

/-- A logical sentence `cells = count`: exactly `count` of the cells in
`cells` are mines.  `__eq__` compares the cell set and the count, which is
exactly Lean structural equality on this structure. -/
structure Sentence where
  cells : Finset Cell
  count : Int
deriving DecidableEq

/-- `Sentence.known_mines`: all cells are mines when `len(self.cells) ==
self.count`, else the empty set. -/
def Sentence.known_mines (s : Sentence) : Finset Cell :=
  if (s.cells.card : Int) = s.count then s.cells else ∅

/-- `Sentence.known_safes`: all cells are safe when `self.count == 0`, else
the empty set. -/
def Sentence.known_safes (s : Sentence) : Finset Cell :=
  if s.count = 0 then s.cells else ∅

/-- `Sentence.mark_mine`: remove the cell and decrement the count when the
cell is present, otherwise do nothing. -/
def Sentence.mark_mine (s : Sentence) (cell : Cell) : Sentence :=
  if cell ∈ s.cells then ⟨s.cells.erase cell, s.count - 1⟩ else s

/-- `Sentence.mark_safe`: remove the cell (count unchanged) when present,
otherwise do nothing. -/
def Sentence.mark_safe (s : Sentence) (cell : Cell) : Sentence :=
  if cell ∈ s.cells then ⟨s.cells.erase cell, s.count⟩ else s

/-! ### The AI state (`class MinesweeperAI`) -/

/-- State of a `MinesweeperAI` instance: grid dimensions plus `moves_made`,
`mines` (known mines), `safes` (known safes) and the `knowledge` list. -/
structure MinesweeperAI where
  height : Nat
  width : Nat
  moves_made : Finset Cell
  mines : Finset Cell
  safes : Finset Cell
  knowledge : List Sentence

/-- `MinesweeperAI.__init__`: empty sets, empty knowledge list. -/
def initAI (height width : Nat) : MinesweeperAI :=
  ⟨height, width, ∅, ∅, ∅, []⟩

/-- `MinesweeperAI.mark_mine`: add the cell to `self.mines` and run
`Sentence.mark_mine` on every sentence in the knowledge list. -/
def MinesweeperAI.mark_mine (st : MinesweeperAI) (cell : Cell) : MinesweeperAI :=
  { st with
    mines := insert cell st.mines
    knowledge := st.knowledge.map fun s => s.mark_mine cell }

/-- `MinesweeperAI.mark_safe`: add the cell to `self.safes` and run
`Sentence.mark_safe` on every sentence in the knowledge list. -/
def MinesweeperAI.mark_safe (st : MinesweeperAI) (cell : Cell) : MinesweeperAI :=
  { st with
    safes := insert cell st.safes
    knowledge := st.knowledge.map fun s => s.mark_safe cell }

/-- Step 3 of `add_knowledge`: the in-bounds cells `(i, j)` with
`cell[0]-1 ≤ i ≤ cell[0]+1`, `cell[1]-1 ≤ j ≤ cell[1]+1`, `0 ≤ i < height`,
`0 ≤ j < width`, with `cell` itself removed afterwards.  (In ℕ the lower
bound `cell.1 - 1` truncates at 0, matching Python's `0 <= i` filter on the
`range(cell[0]-1, cell[0]+2)` candidates.) -/
def neighbours (height width : Nat) (cell : Cell) : Finset Cell :=
  (((Finset.Icc (cell.1 - 1) (cell.1 + 1)) ×ˢ
      (Finset.Icc (cell.2 - 1) (cell.2 + 1))).filter
    (fun p => p.1 < height ∧ p.2 < width)).erase cell

/-- Lexicographic order on cells, used only to linearize Python's unordered
iteration over the `mine_cells` / `safe_cells` sets in step 6 of
`add_knowledge` (the resulting state does not depend on the order). -/
def cellLe (a b : Cell) : Prop :=
  a.1 < b.1 ∨ (a.1 = b.1 ∧ a.2 ≤ b.2)

instance : DecidableRel cellLe := fun a b => by
  unfold cellLe; infer_instance

/-- Sorted insertion of a cell into a list, the building block of the
deterministic enumeration of a cell set. -/
def insertCell (c : Cell) : List Cell → List Cell
  | [] => [c]
  | x :: xs => if cellLe c x then c :: x :: xs else x :: insertCell c xs

instance : LeftCommutative insertCell := by
  constructor
  intro a b l
  have hanti : ∀ x y : Cell, cellLe x y → cellLe y x → x = y := by
    intro ⟨p, q⟩ ⟨u, v⟩ h1 h2
    unfold cellLe at *
    simp only [Prod.mk.injEq]
    omega
  have htot : ∀ x y : Cell, cellLe x y ∨ cellLe y x := by
    intro x y; unfold cellLe; omega
  have htrans : ∀ x y z : Cell, cellLe x y → cellLe y z → cellLe x z := by
    intro x y z h1 h2; unfold cellLe at *; omega
  induction l with
  | nil =>
    by_cases hab : cellLe a b <;> by_cases hba : cellLe b a
    · rw [hanti a b hab hba]
    · simp [insertCell, hab, hba]
    · simp [insertCell, hab, hba]
    · rcases htot a b with h | h
      · exact absurd h hab
      · exact absurd h hba
  | cons x xs ih =>
    by_cases hax : cellLe a x <;> by_cases hbx : cellLe b x
    · by_cases hab : cellLe a b <;> by_cases hba : cellLe b a
      · rw [hanti a b hab hba]
      · simp [insertCell, hax, hbx, hab, hba]
      · simp [insertCell, hax, hbx, hab, hba]
      · rcases htot a b with h | h
        · exact absurd h hab
        · exact absurd h hba
    · have hba : ¬cellLe b a := fun h => hbx (htrans b a x h hax)
      simp [insertCell, hax, hbx, hba]
    · have hab : ¬cellLe a b := fun h => hax (htrans a b x h hbx)
      simp [insertCell, hax, hbx, hab]
    · simp [insertCell, hax, hbx, ih]

/-- Deterministic enumeration of a finite cell set (sorted by `cellLe`;
well defined on the multiset quotient because sorted insertion is
left-commutative). -/
def sortCells (s : Finset Cell) : List Cell :=
  Multiset.foldr insertCell [] s.val

/-- Step 7 of `add_knowledge`: the list `new` built by the nested loops
`for s1 in self.knowledge: for s2 in self.knowledge: ...` — skip equal or
empty sentences, and when `s1.cells ⊆ s2.cells` derive
`(s2.cells - s1.cells, s2.count - s1.count)`, appending it when it is in
neither the knowledge list nor `new` already. -/
def inferStep (kb : List Sentence) : List Sentence :=
  kb.foldl
    (fun acc s1 =>
      kb.foldl
        (fun acc s2 =>
          if s1 = s2 ∨ s1.cells.card = 0 ∨ s2.cells.card = 0 then acc
          else if s1.cells ⊆ s2.cells then
            let new_s : Sentence := ⟨s2.cells \ s1.cells, s2.count - s1.count⟩
            if new_s ∉ kb ∧ new_s ∉ acc then acc ++ [new_s] else acc
          else acc)
        acc)
    []

/-- `MinesweeperAI.add_knowledge`, with the seven numbered steps of the
source laid out in order: record the move, mark the revealed cell safe,
compute neighbours, drop known mines (decrementing the working count) and
known safes / made moves, append the new sentence when not a duplicate,
collect and apply all certain mines then all certain safes, and extend the
knowledge list with the subset inferences. -/
def MinesweeperAI.add_knowledge (st : MinesweeperAI) (cell : Cell)
    (count : Int) : MinesweeperAI :=
  -- Step 1: self.moves_made.add(cell)
  let st1 : MinesweeperAI := { st with moves_made := insert cell st.moves_made }
  -- Step 2: if cell not in self.safes: self.mark_safe(cell)
  let st2 := if cell ∈ st1.safes then st1 else st1.mark_safe cell
  -- Step 3: neighbouring cells
  let nbrs := neighbours st2.height st2.width cell
  -- Step 4: removal set and adjusted count
  let removal := nbrs.filter fun n =>
    n ∈ st2.mines ∨ n ∈ st2.safes ∨ n ∈ st2.moves_made
  let count2 := count - ((nbrs.filter fun n => n ∈ st2.mines).card : Int)
  let nbrs2 := nbrs \ removal
  -- Step 5: append the new sentence unless structurally present
  let s : Sentence := ⟨nbrs2, count2⟩
  let st3 := if s ∈ st2.knowledge then st2
    else { st2 with knowledge := st2.knowledge ++ [s] }
  -- Step 6: collect every certain mine and certain safe, then mark them
  let mine_cells := st3.knowledge.foldl (fun acc t => acc ∪ t.known_mines) ∅
  let safe_cells := st3.knowledge.foldl (fun acc t => acc ∪ t.known_safes) ∅
  let st4 := (sortCells mine_cells).foldl MinesweeperAI.mark_mine st3
  let st5 := (sortCells safe_cells).foldl MinesweeperAI.mark_safe st4
  -- Step 7: extend with the subset inferences
  { st5 with knowledge := st5.knowledge ++ inferStep st5.knowledge }

/-- Row-major enumeration of the grid, the iteration order of the nested
`for i in range(self.height): for j in range(self.width)` loops. -/
def gridCells (height width : Nat) : List Cell :=
  (List.range height).flatMap fun i => (List.range width).map fun j => (i, j)

/-- `MinesweeperAI.make_safe_move`: first cell in row-major order that is
known safe and not already played; `none` when there is none. -/
def MinesweeperAI.make_safe_move (st : MinesweeperAI) : Option Cell :=
  (gridCells st.height st.width).find? fun c =>
    !decide (c ∈ st.moves_made) && decide (c ∈ st.safes)

/-- The `options` list of `MinesweeperAI.make_random_move`: cells not
already played and not known mines, in row-major order. -/
def MinesweeperAI.randomOptions (st : MinesweeperAI) : List Cell :=
  (gridCells st.height st.width).filter fun c =>
    !decide (c ∈ st.moves_made) && !decide (c ∈ st.mines)

/-- `MinesweeperAI.make_random_move` with an injected random draw `r`:
`random.choice(options)` is modelled as indexing `options` at `r` reduced
modulo its length; `none` when `options` is empty. -/
def MinesweeperAI.make_random_move (st : MinesweeperAI) (r : Nat) : Option Cell :=
  let options := st.randomOptions
  if h : options.length = 0 then none
  else some (options.get ⟨r % options.length, Nat.mod_lt _ (Nat.pos_of_ne_zero h)⟩)

/-! ### Sequences of public knowledge-base operations -/

/-- One public mutating call on the knowledge base. -/
inductive AIOp where
  | addK (cell : Cell) (count : Int)
  | mine (cell : Cell)
  | safe (cell : Cell)

/-- Apply one public call. -/
def applyOp (st : MinesweeperAI) : AIOp → MinesweeperAI
  | .addK cell count => st.add_knowledge cell count
  | .mine cell => st.mark_mine cell
  | .safe cell => st.mark_safe cell

/-- Run a sequence of public calls in order. -/
def runOps (st : MinesweeperAI) (ops : List AIOp) : MinesweeperAI :=
  ops.foldl applyOp st

/-- Invariant of claim C9: no sentence in the knowledge list mentions a cell
whose status is already recorded in `mines` or `safes`. -/
def KnowledgeDisjoint (st : MinesweeperAI) : Prop :=
  ∀ s ∈ st.knowledge, ∀ c ∈ s.cells, c ∉ st.mines ∧ c ∉ st.safes

/-! ### Basic lemmas about sentence and global marking operations -/

theorem Sentence.mem_mark_mine_cells {s : Sentence} {cell x : Cell}
    (h : x ∈ (s.mark_mine cell).cells) : x ∈ s.cells ∧ x ≠ cell := by
  unfold Sentence.mark_mine at h
  split at h
  · exact ⟨Finset.mem_of_mem_erase h, Finset.ne_of_mem_erase h⟩
  · exact ⟨h, fun hx => by subst hx; exact absurd h (by assumption)⟩

theorem Sentence.mem_mark_safe_cells {s : Sentence} {cell x : Cell}
    (h : x ∈ (s.mark_safe cell).cells) : x ∈ s.cells ∧ x ≠ cell := by
  unfold Sentence.mark_safe at h
  split at h
  · exact ⟨Finset.mem_of_mem_erase h, Finset.ne_of_mem_erase h⟩
  · exact ⟨h, fun hx => by subst hx; exact absurd h (by assumption)⟩

theorem Sentence.mark_safe_idem (s : Sentence) (cell : Cell) :
    (s.mark_safe cell).mark_safe cell = s.mark_safe cell := by
  unfold Sentence.mark_safe
  by_cases h : cell ∈ s.cells
  · simp [h, Finset.not_mem_erase]
  · simp [h]

theorem mark_mine_height (st : MinesweeperAI) (c : Cell) :
    (st.mark_mine c).height = st.height := rfl

theorem mark_mine_width (st : MinesweeperAI) (c : Cell) :
    (st.mark_mine c).width = st.width := rfl

theorem mark_mine_moves (st : MinesweeperAI) (c : Cell) :
    (st.mark_mine c).moves_made = st.moves_made := rfl

theorem mark_mine_mines (st : MinesweeperAI) (c : Cell) :
    (st.mark_mine c).mines = insert c st.mines := rfl

theorem mark_mine_safes (st : MinesweeperAI) (c : Cell) :
    (st.mark_mine c).safes = st.safes := rfl

theorem mark_mine_knowledge (st : MinesweeperAI) (c : Cell) :
    (st.mark_mine c).knowledge = st.knowledge.map fun s => s.mark_mine c := rfl

theorem mark_safe_height (st : MinesweeperAI) (c : Cell) :
    (st.mark_safe c).height = st.height := rfl

theorem mark_safe_width (st : MinesweeperAI) (c : Cell) :
    (st.mark_safe c).width = st.width := rfl

theorem mark_safe_moves (st : MinesweeperAI) (c : Cell) :
    (st.mark_safe c).moves_made = st.moves_made := rfl

theorem mark_safe_mines (st : MinesweeperAI) (c : Cell) :
    (st.mark_safe c).mines = st.mines := rfl

theorem mark_safe_safes (st : MinesweeperAI) (c : Cell) :
    (st.mark_safe c).safes = insert c st.safes := rfl

theorem mark_safe_knowledge (st : MinesweeperAI) (c : Cell) :
    (st.mark_safe c).knowledge = st.knowledge.map fun s => s.mark_safe c := rfl

/-! ### Lemmas about the step-6 marking folds -/

theorem foldl_mark_mine_safes (l : List Cell) (st : MinesweeperAI) :
    (l.foldl MinesweeperAI.mark_mine st).safes = st.safes := by
  induction l generalizing st with
  | nil => rfl
  | cons x xs ih => simp [List.foldl_cons, ih, mark_mine_safes]

theorem foldl_mark_safe_mines (l : List Cell) (st : MinesweeperAI) :
    (l.foldl MinesweeperAI.mark_safe st).mines = st.mines := by
  induction l generalizing st with
  | nil => rfl
  | cons x xs ih => simp [List.foldl_cons, ih, mark_safe_mines]

theorem foldl_mark_mine_mines_mono (l : List Cell) (st : MinesweeperAI) :
    st.mines ⊆ (l.foldl MinesweeperAI.mark_mine st).mines := by
  induction l generalizing st with
  | nil => exact Finset.Subset.refl _
  | cons x xs ih =>
    intro c hc
    exact ih (st.mark_mine x) (by simp [mark_mine_mines, hc])

theorem foldl_mark_safe_safes_mono (l : List Cell) (st : MinesweeperAI) :
    st.safes ⊆ (l.foldl MinesweeperAI.mark_safe st).safes := by
  induction l generalizing st with
  | nil => exact Finset.Subset.refl _
  | cons x xs ih =>
    intro c hc
    exact ih (st.mark_safe x) (by simp [mark_safe_safes, hc])

theorem mem_foldl_mark_safe_safes {l : List Cell} {c : Cell}
    (st : MinesweeperAI) (h : c ∈ l) :
    c ∈ (l.foldl MinesweeperAI.mark_safe st).safes := by
  induction l generalizing st with
  | nil => cases h
  | cons x xs ih =>
    rcases List.mem_cons.mp h with rfl | hx
    · exact foldl_mark_safe_safes_mono xs (st.mark_safe c)
        (by simp [mark_safe_safes])
    · exact ih (st.mark_safe x) hx

/-! ### Membership in the deterministic enumeration of a cell set -/

theorem mem_insertCell {c x : Cell} {l : List Cell} :
    x ∈ insertCell c l ↔ x = c ∨ x ∈ l := by
  induction l with
  | nil => simp [insertCell]
  | cons y ys ih =>
    unfold insertCell
    split
    · simp
    · simp only [List.mem_cons, ih]
      tauto

theorem mem_sortCells {s : Finset Cell} {c : Cell} :
    c ∈ sortCells s ↔ c ∈ s := by
  unfold sortCells
  rw [← Finset.mem_def.symm]
  have : ∀ m : Multiset Cell, c ∈ Multiset.foldr insertCell [] m ↔ c ∈ m := by
    intro m
    induction m using Multiset.induction_on with
    | empty => simp
    | cons a t ih => simp [Multiset.foldr_cons, mem_insertCell, ih]
  exact (this s.val).trans Iff.rfl

/-! ### Claim C6: known_mines / known_safes -/

/-- C6: `known_mines` returns the whole cell set when `count` equals the
number of cells and the empty set otherwise; `known_safes` returns the whole
cell set when `count` is zero and the empty set otherwise. -/
theorem sentence_known_mines_safes_spec (s : Sentence) :
    ((s.cells.card : Int) = s.count → s.known_mines = s.cells) ∧
    ((s.cells.card : Int) ≠ s.count → s.known_mines = ∅) ∧
    (s.count = 0 → s.known_safes = s.cells) ∧
    (s.count ≠ 0 → s.known_safes = ∅) := by
  refine ⟨?_, ?_, ?_, ?_⟩ <;> intro h <;>
    simp [Sentence.known_mines, Sentence.known_safes, h]

/-- Witness for C6 at the sentence `{(0,0)} = 1`. -/
theorem sentence_known_mines_safes_spec_witness :
    (Sentence.mk {(0, 0)} 1).known_mines = {(0, 0)} ∧
    (Sentence.mk {(0, 0)} 1).known_safes = ∅ :=
  ⟨(sentence_known_mines_safes_spec ⟨{(0, 0)}, 1⟩).1 (by decide),
   (sentence_known_mines_safes_spec ⟨{(0, 0)}, 1⟩).2.2.2 (by decide)⟩

/-! ### Claim C7: mark_mine / mark_safe on a sentence -/

/-- C7: on a present cell, `mark_mine` removes the cell and decrements the
count by exactly one while `mark_safe` removes the cell and keeps the count;
on an absent cell both are no-ops. -/
theorem sentence_mark_spec (s : Sentence) (c : Cell) :
    (c ∈ s.cells →
      (s.mark_mine c).cells = s.cells.erase c ∧
      (s.mark_mine c).cells.card = s.cells.card - 1 ∧
      (s.mark_mine c).count = s.count - 1 ∧
      (s.mark_safe c).cells = s.cells.erase c ∧
      (s.mark_safe c).count = s.count) ∧
    (c ∉ s.cells → s.mark_mine c = s ∧ s.mark_safe c = s) := by
  constructor
  · intro h
    refine ⟨?_, ?_, ?_, ?_, ?_⟩ <;>
      simp [Sentence.mark_mine, Sentence.mark_safe, h, Finset.card_erase_of_mem]
  · intro h
    constructor <;> simp [Sentence.mark_mine, Sentence.mark_safe, h]

/-- Witness for C7: a present cell `(0,0)` and an absent cell `(1,1)` of the
sentence `{(0,0)} = 1`. -/
theorem sentence_mark_spec_witness :
    (Sentence.mk {(0, 0)} 1).mark_mine (0, 0) = ⟨∅, 0⟩ ∧
    (Sentence.mk {(0, 0)} 1).mark_safe (1, 1) = ⟨{(0, 0)}, 1⟩ := by
  have h1 := (sentence_mark_spec ⟨{(0, 0)}, 1⟩ (0, 0)).1 (by decide)
  have h2 := (sentence_mark_spec ⟨{(0, 0)}, 1⟩ (1, 1)).2 (by decide)
  constructor
  · have hc := h1.1
    have hk := h1.2.2.1
    cases he : (Sentence.mk {(0, 0)} 1).mark_mine (0, 0)
    rw [he] at hc hk
    simp at hc hk
    simp [hc, hk]
  · exact h2.2

/-! ### Claim C10: global mark_safe is idempotent -/

/-- C10: calling `MinesweeperAI.mark_safe` twice on the same cell leaves
the whole engine state identical to calling it once. -/
theorem mark_safe_global_idem (st : MinesweeperAI) (cell : Cell) :
    (st.mark_safe cell).mark_safe cell = st.mark_safe cell := by
  unfold MinesweeperAI.mark_safe
  simp only [Finset.insert_idem, List.map_map]
  congr 1
  apply List.map_congr_left
  intro s _
  exact Sentence.mark_safe_idem s cell

/-! ### Claim C4: out-of-bounds is_mine queries -/

/-- Counterexample to C4 as stated: the cell `(-1, -1)` is outside the
bounds of a 1×1 board, yet `is_mine` silently returns a boolean (Python
negative indexing wraps to `board[0][0]`) instead of raising. -/
theorem is_mine_oob_cex :
    ¬(0 ≤ (-1 : Int)) ∧
    Minesweeper.is_mine 1 1 {(0, 0)} (-1, -1) = some true := by
  constructor
  · decide
  · decide

theorem pyGet_eq_none_iff {α : Type} (l : List α) (i : Int) :
    pyGet l i = none ↔ i < -(l.length : Int) ∨ (l.length : Int) ≤ i := by
  unfold pyGet
  split
  · rw [List.get?_eq_none]
    constructor <;> intro <;> omega
  · split
    · rw [List.get?_eq_none]
      constructor <;> intro <;> omega
    · constructor <;> intro <;> [omega; rfl]

theorem pyGet_mem {α : Type} {l : List α} {i : Int} {a : α}
    (h : pyGet l i = some a) : a ∈ l := by
  unfold pyGet at h
  split at h
  · exact List.get?_mem h
  · split at h
    · exact List.get?_mem h
    · cases h

/-- C4 amended: `is_mine` raises `IndexError` exactly when the row index is
outside `[-H, H)` or the column index is outside `[-W, W)`; in particular
negative indices within Python range silently return a value instead of
rejecting. -/
theorem is_mine_none_iff (H W : Nat) (mines : Finset Cell) (i j : Int) :
    Minesweeper.is_mine H W mines (i, j) = none ↔
      i < -(H : Int) ∨ (H : Int) ≤ i ∨ j < -(W : Int) ∨ (W : Int) ≤ j := by
  have hlen : (boardOf H W mines).length = H := by
    simp [boardOf]
  unfold Minesweeper.is_mine
  rcases h : pyGet (boardOf H W mines) i with _ | row
  · have hi := (pyGet_eq_none_iff _ i).mp h
    rw [hlen] at hi
    simp only [Option.none_bind]
    constructor
    · intro
      rcases hi with hi | hi
      · exact Or.inl hi
      · exact Or.inr (Or.inl hi)
    · intro
      trivial
  · have hrow : row ∈ boardOf H W mines := pyGet_mem h
    have hrowlen : row.length = W := by
      unfold boardOf at hrow
      rcases List.mem_map.mp hrow with ⟨k, _, hk⟩
      rw [← hk]
      simp
    have houter : ¬(i < -(H : Int) ∨ (H : Int) ≤ i) := by
      intro hcontra
      have : pyGet (boardOf H W mines) i = none := by
        rw [pyGet_eq_none_iff, hlen]
        exact hcontra
      rw [h] at this
      cases this
    simp only [Option.some_bind]
    rw [pyGet_eq_none_iff, hrowlen]
    constructor
    · intro hj
      rcases hj with hj | hj
      · exact Or.inr (Or.inr (Or.inl hj))
      · exact Or.inr (Or.inr (Or.inr hj))
    · intro hj
      rcases hj with hj | hj | hj | hj
      · exact absurd (Or.inl hj) houter
      · exact absurd (Or.inr hj) houter
      · exact Or.inl hj
      · exact Or.inr hj

/-! ### Claim C2: mine placement with more mines than cells -/

theorem placeMines_overfull_none (H W M : Nat) (picks : Nat → Nat × Nat)
    (hH : 0 < H) (hW : 0 < W) (hM : H * W < M) :
    ∀ (fuel t : Nat) (mines : Finset Cell), mines ⊆ gridFinset H W →
      placeMines H W M picks fuel t mines = none := by
  intro fuel
  induction fuel with
  | zero => intro t mines _; rfl
  | succ n ih =>
    intro t mines hsub
    have hcard : mines.card ≤ H * W := by
      have hle := Finset.card_le_card hsub
      simpa [gridFinset] using hle
    unfold placeMines
    rw [if_neg (by omega)]
    have hsub' :
        (if ((picks t).1 % H, (picks t).2 % W) ∈ mines then mines
          else insert ((picks t).1 % H, (picks t).2 % W) mines) ⊆
          gridFinset H W := by
      split
      · exact hsub
      · refine Finset.insert_subset ?_ hsub
        simp only [gridFinset, Finset.mem_product, Finset.mem_range]
        exact ⟨Nat.mod_lt _ hH, Nat.mod_lt _ hW⟩
    exact ih (t + 1) _ hsub'

/-- C2 (the code's actual behaviour): with more mines requested than grid
cells, the placement loop of `Minesweeper.__init__` never terminates — for
every iteration bound it is still running; it neither raises an error nor
returns a board. -/
theorem placeMines_overfull_diverges (H W M : Nat) (picks : Nat → Nat × Nat)
    (hH : 0 < H) (hW : 0 < W) (hM : H * W < M) :
    ¬placeTerminates H W M picks := by
  rintro ⟨fuel, board, hb⟩
  rw [placeMines_overfull_none H W M picks hH hW hM fuel 0 ∅
    (Finset.empty_subset _)] at hb
  cases hb

/-- Witness for C2 at the failing input: a 1×1 board asked for 2 mines. -/
theorem placeMines_overfull_diverges_witness :
    ¬placeTerminates 1 1 2 (fun _ => (0, 0)) :=
  placeMines_overfull_diverges 1 1 2 (fun _ => (0, 0)) (by decide) (by decide)
    (by decide)

/-! ### Claim C8: move selectors -/

theorem mem_gridCells {H W : Nat} {c : Cell} :
    c ∈ gridCells H W ↔ c.1 < H ∧ c.2 < W := by
  obtain ⟨i, j⟩ := c
  unfold gridCells
  simp only [List.mem_flatMap, List.mem_map, List.mem_range, Prod.mk.injEq]
  constructor
  · rintro ⟨a, ha, b, hb, rfl, rfl⟩
    exact ⟨ha, hb⟩
  · rintro ⟨h1, h2⟩
    exact ⟨i, h1, j, h2, rfl, rfl⟩

/-- C8: `make_safe_move` never returns a made move; `make_random_move`
never returns a made move or a known mine, and returns `none` exactly when
every cell of the grid is a made move or a known mine. -/
theorem move_selectors_spec (st : MinesweeperAI) (r : Nat) :
    (∀ c : Cell, st.make_safe_move = some c → c ∉ st.moves_made) ∧
    (∀ c : Cell, st.make_random_move r = some c →
      c ∉ st.moves_made ∧ c ∉ st.mines) ∧
    (st.make_random_move r = none ↔
      ∀ i j : Nat, i < st.height → j < st.width →
        (i, j) ∈ st.moves_made ∨ (i, j) ∈ st.mines) := by
  refine ⟨?_, ?_, ?_⟩
  · intro c h
    have hp := List.find?_some h
    simp only [Bool.and_eq_true, Bool.not_eq_true', decide_eq_false_iff_not,
      decide_eq_true_eq] at hp
    exact hp.1
  · intro c h
    simp only [MinesweeperAI.make_random_move] at h
    split at h
    · cases h
    · have hc : c ∈ st.randomOptions := by
        rw [← Option.some.injEq _ _ |>.mp h]
        exact List.get_mem _ _ _
      have hp := (List.mem_filter.mp hc).2
      simp only [Bool.and_eq_true, Bool.not_eq_true',
        decide_eq_false_iff_not] at hp
      exact hp
  · simp only [MinesweeperAI.make_random_move]
    split
    · rename_i hlen
      have hnil : st.randomOptions = [] := List.length_eq_zero.mp hlen
      have hall := List.filter_eq_nil_iff.mp hnil
      constructor
      · intro _ i j hi hj
        have hg : (i, j) ∈ gridCells st.height st.width :=
          mem_gridCells.mpr ⟨hi, hj⟩
        have := hall _ hg
        simp only [Bool.and_eq_true, Bool.not_eq_true',
          decide_eq_false_iff_not] at this
        by_cases hm : (i, j) ∈ st.moves_made
        · exact Or.inl hm
        · by_cases hn : (i, j) ∈ st.mines
          · exact Or.inr hn
          · exact absurd ⟨hm, hn⟩ this
      · intro _
        rfl
    · rename_i hlen
      constructor
      · intro h
        cases h
      · intro hall
        exfalso
        have hmem : st.randomOptions.get ⟨0, Nat.pos_of_ne_zero hlen⟩ ∈
            st.randomOptions := List.get_mem _ _ _
        obtain ⟨hg, hp⟩ := List.mem_filter.mp hmem
        simp only [Bool.and_eq_true, Bool.not_eq_true',
          decide_eq_false_iff_not] at hp
        obtain ⟨hi, hj⟩ := mem_gridCells.mp hg
        rcases hall _ _ hi hj with hm | hm
        · exact hp.1 (by simpa using hm)
        · exact hp.2 (by simpa using hm)

/-- Witness for C8: a fresh 1×1 engine has `(0,0)` as a legal random move,
and an engine whose only cell is already played reports every grid cell
excluded. -/
theorem move_selectors_spec_witness :
    ((0, 0) ∉ (initAI 1 1).moves_made ∧ (0, 0) ∉ (initAI 1 1).mines) ∧
    ((0, 0) ∈ (MinesweeperAI.mk 1 1 {(0, 0)} ∅ ∅ []).moves_made ∨
      (0, 0) ∈ (MinesweeperAI.mk 1 1 {(0, 0)} ∅ ∅ []).mines) :=
  ⟨(move_selectors_spec (initAI 1 1) 0).2.1 (0, 0) (by decide),
   ((move_selectors_spec (MinesweeperAI.mk 1 1 {(0, 0)} ∅ ∅ []) 0).2.2.mp
      (by decide)) 0 0 (by decide) (by decide)⟩

/-! ### Claim C3: monotonicity of the known sets; disjointness fails -/

theorem addK_mines_mono (st : MinesweeperAI) (cell : Cell) (count : Int) :
    st.mines ⊆ (st.add_knowledge cell count).mines := by
  simp only [MinesweeperAI.add_knowledge]
  rw [foldl_mark_safe_mines]
  refine Finset.Subset.trans ?_ (foldl_mark_mine_mines_mono _ _)
  split
  · split
    · exact Finset.Subset.refl _
    · exact Finset.Subset.refl _
  · split
    · exact Finset.Subset.refl _
    · exact Finset.Subset.refl _

theorem addK_safes_mono (st : MinesweeperAI) (cell : Cell) (count : Int) :
    st.safes ⊆ (st.add_knowledge cell count).safes := by
  simp only [MinesweeperAI.add_knowledge]
  refine Finset.Subset.trans ?_ (foldl_mark_safe_safes_mono _ _)
  rw [foldl_mark_mine_safes]
  split
  · split
    · exact Finset.Subset.refl _
    · exact Finset.Subset.refl _
  · split
    · exact Finset.subset_insert _ _
    · exact Finset.subset_insert _ _

/-- Counterexample to C3 as stated: the two-call sequence
`mark_mine (0,0); mark_safe (0,0)` of public operations leaves `(0,0)` in
both `mines` and `safes` — nothing in the code removes from either set or
checks them against each other. -/
theorem mines_safes_disjoint_cex :
    (0, 0) ∈ (runOps (initAI 1 1) [AIOp.mine (0, 0), AIOp.safe (0, 0)]).mines ∧
    (0, 0) ∈ (runOps (initAI 1 1) [AIOp.mine (0, 0), AIOp.safe (0, 0)]).safes := by
  constructor
  · decide
  · decide

/-- C3 amended (the monotonicity half holds): across any sequence of public
operations, `mines` and `safes` never lose an element. -/
theorem known_sets_monotone_runOps (st : MinesweeperAI) (ops : List AIOp) :
    st.mines ⊆ (runOps st ops).mines ∧ st.safes ⊆ (runOps st ops).safes := by
  induction ops generalizing st with
  | nil => exact ⟨Finset.Subset.refl _, Finset.Subset.refl _⟩
  | cons op rest ih =>
    have hstep : st.mines ⊆ (applyOp st op).mines ∧
        st.safes ⊆ (applyOp st op).safes := by
      cases op with
      | addK c k => exact ⟨addK_mines_mono st c k, addK_safes_mono st c k⟩
      | mine c =>
        refine ⟨?_, ?_⟩
        · rw [applyOp, mark_mine_mines]
          exact Finset.subset_insert _ _
        · rw [applyOp, mark_mine_safes]
      | safe c =>
        refine ⟨?_, ?_⟩
        · rw [applyOp, mark_safe_mines]
        · rw [applyOp, mark_safe_safes]
          exact Finset.subset_insert _ _
    obtain ⟨h1, h2⟩ := ih (applyOp st op)
    simp only [runOps, List.foldl_cons] at *
    exact ⟨Finset.Subset.trans hstep.1 h1, Finset.Subset.trans hstep.2 h2⟩

/-! ### Claim C9: sentences never mention globally decided cells -/

theorem foldl_rec {α β : Type} (f : β → α → β) (P : β → Prop) :
    ∀ (l : List α) (b : β), P b →
      (∀ (x : β) (a : α), a ∈ l → P x → P (f x a)) → P (l.foldl f b) := by
  intro l
  induction l with
  | nil => intro b hb _; exact hb
  | cons a as ih =>
    intro b hb hstep
    exact ih (f b a) (hstep b a (List.mem_cons_self a as) hb)
      fun x y hy hx => hstep x y (List.mem_cons_of_mem a hy) hx

theorem markMine_disjoint {st : MinesweeperAI} {c : Cell}
    (h : KnowledgeDisjoint st) : KnowledgeDisjoint (st.mark_mine c) := by
  intro s hs x hx
  rw [mark_mine_knowledge] at hs
  obtain ⟨t, ht, rfl⟩ := List.mem_map.mp hs
  obtain ⟨hxt, hxc⟩ := Sentence.mem_mark_mine_cells hx
  obtain ⟨h1, h2⟩ := h t ht x hxt
  rw [mark_mine_mines, mark_mine_safes]
  exact ⟨by simp [Finset.mem_insert, hxc, h1], h2⟩

theorem markSafe_disjoint {st : MinesweeperAI} {c : Cell}
    (h : KnowledgeDisjoint st) : KnowledgeDisjoint (st.mark_safe c) := by
  intro s hs x hx
  rw [mark_safe_knowledge] at hs
  obtain ⟨t, ht, rfl⟩ := List.mem_map.mp hs
  obtain ⟨hxt, hxc⟩ := Sentence.mem_mark_safe_cells hx
  obtain ⟨h1, h2⟩ := h t ht x hxt
  rw [mark_safe_mines, mark_safe_safes]
  exact ⟨h1, by simp [Finset.mem_insert, hxc, h2]⟩

theorem foldl_markMine_disjoint (l : List Cell) (st : MinesweeperAI)
    (h : KnowledgeDisjoint st) :
    KnowledgeDisjoint (l.foldl MinesweeperAI.mark_mine st) :=
  foldl_rec _ KnowledgeDisjoint l st h fun _ _ _ hx => markMine_disjoint hx

theorem foldl_markSafe_disjoint (l : List Cell) (st : MinesweeperAI)
    (h : KnowledgeDisjoint st) :
    KnowledgeDisjoint (l.foldl MinesweeperAI.mark_safe st) :=
  foldl_rec _ KnowledgeDisjoint l st h fun _ _ _ hx => markSafe_disjoint hx

theorem inferStep_cells_subset (kb : List Sentence) :
    ∀ t ∈ inferStep kb, ∃ s ∈ kb, t.cells ⊆ s.cells := by
  simp only [inferStep]
  refine foldl_rec _
    (fun acc : List Sentence => ∀ t ∈ acc, ∃ s ∈ kb, t.cells ⊆ s.cells) kb []
    (by simp) ?_
  intro acc s1 _ hacc
  refine foldl_rec _
    (fun acc : List Sentence => ∀ t ∈ acc, ∃ s ∈ kb, t.cells ⊆ s.cells) kb acc
    hacc ?_
  intro acc2 s2 hs2 hacc2
  split
  · exact hacc2
  · split
    · split
      · intro t ht
        rcases List.mem_append.mp ht with ht | ht
        · exact hacc2 t ht
        · rcases List.mem_singleton.mp ht with rfl
          exact ⟨s2, hs2, Finset.sdiff_subset⟩
      · exact hacc2
    · exact hacc2

theorem append_sentence_disjoint {st : MinesweeperAI} {cs : Finset Cell}
    {k : Int} (h : KnowledgeDisjoint st)
    (hcs : ∀ x ∈ cs, x ∉ st.mines ∧ x ∉ st.safes) :
    KnowledgeDisjoint { st with knowledge := st.knowledge ++ [⟨cs, k⟩] } := by
  intro s hs x hx
  rcases List.mem_append.mp hs with hs | hs
  · exact h s hs x hx
  · rcases List.mem_singleton.mp hs with rfl
    exact hcs x hx

theorem append_inferStep_disjoint {st : MinesweeperAI}
    (h : KnowledgeDisjoint st) :
    KnowledgeDisjoint
      { st with knowledge := st.knowledge ++ inferStep st.knowledge } := by
  intro s hs x hx
  rcases List.mem_append.mp hs with hs | hs
  · exact h s hs x hx
  · obtain ⟨s2, hs2, hsub⟩ := inferStep_cells_subset st.knowledge s hs
    exact h s2 hs2 x (hsub hx)

theorem addK_disjoint (st : MinesweeperAI) (cell : Cell) (count : Int)
    (h : KnowledgeDisjoint st) :
    KnowledgeDisjoint (st.add_knowledge cell count) := by
  simp only [MinesweeperAI.add_knowledge]
  apply append_inferStep_disjoint
  apply foldl_markSafe_disjoint
  apply foldl_markMine_disjoint
  -- first the step-2 conditional, then the step-5 conditional
  split
  · split
    · exact fun s hs x hx => h s hs x hx
    · apply append_sentence_disjoint (fun s hs x hx => h s hs x hx)
      intro x hx
      obtain ⟨hx1, hx2⟩ := Finset.mem_sdiff.mp hx
      have hnp : ¬(x ∈ st.mines ∨ x ∈ st.safes ∨ x ∈ insert cell st.moves_made) :=
        fun hp => hx2 (Finset.mem_filter.mpr ⟨hx1, hp⟩)
      push_neg at hnp
      exact ⟨hnp.1, hnp.2.1⟩
  · split
    · exact markSafe_disjoint (fun s hs x hx => h s hs x hx)
    · apply append_sentence_disjoint
        (markSafe_disjoint (fun s hs x hx => h s hs x hx))
      intro x hx
      obtain ⟨hx1, hx2⟩ := Finset.mem_sdiff.mp hx
      have hnp : ¬(x ∈ ((MinesweeperAI.mk st.height st.width
            (insert cell st.moves_made) st.mines st.safes
            st.knowledge).mark_safe cell).mines ∨
          x ∈ ((MinesweeperAI.mk st.height st.width
            (insert cell st.moves_made) st.mines st.safes
            st.knowledge).mark_safe cell).safes ∨
          x ∈ insert cell st.moves_made) :=
        fun hp => hx2 (Finset.mem_filter.mpr ⟨hx1, hp⟩)
      push_neg at hnp
      exact ⟨hnp.1, hnp.2.1⟩

/-- C9: starting from a fresh engine, after any sequence of public calls no
sentence in the knowledge list mentions a cell recorded in `mines` or in
`safes`. -/
theorem knowledge_disjoint_runOps (H W : Nat) (ops : List AIOp) :
    KnowledgeDisjoint (runOps (initAI H W) ops) := by
  have hrun : ∀ (ops : List AIOp) (st : MinesweeperAI), KnowledgeDisjoint st →
      KnowledgeDisjoint (runOps st ops) := by
    intro ops
    induction ops with
    | nil => intro st h; exact h
    | cons op rest ih =>
      intro st h
      simp only [runOps, List.foldl_cons]
      apply ih
      cases op with
      | addK c k => exact addK_disjoint st c k h
      | mine c => exact markMine_disjoint h
      | safe c => exact markSafe_disjoint h
  apply hrun
  intro s hs
  simp [initAI] at hs

/-- Witness for C9: after revealing `(0,0)` with count 1 on a 2×2 grid, the
recorded sentence mentions `(0,1)`, which is in neither known set. -/
theorem knowledge_disjoint_runOps_witness :
    (0, 1) ∉ (runOps (initAI 2 2) [AIOp.addK (0, 0) 1]).mines ∧
    (0, 1) ∉ (runOps (initAI 2 2) [AIOp.addK (0, 0) 1]).safes :=
  knowledge_disjoint_runOps 2 2 [AIOp.addK (0, 0) 1]
    ⟨{(0, 1), (1, 0), (1, 1)}, 1⟩ (by decide) (0, 1) (by decide)

/-! ### Claim C1: a derived singleton-zero sentence and propagation -/

theorem mem_foldl_union_init {g : Sentence → Finset Cell} :
    ∀ (kb : List Sentence) (init : Finset Cell) (x : Cell), x ∈ init →
      x ∈ kb.foldl (fun acc t => acc ∪ g t) init := by
  intro kb
  induction kb with
  | nil => intro _ x hx; exact hx
  | cons s ss ih => intro init x hx; exact ih _ x (Finset.mem_union_left _ hx)

theorem mem_foldl_union {g : Sentence → Finset Cell} :
    ∀ (kb : List Sentence) (init : Finset Cell) (s : Sentence) (x : Cell),
      s ∈ kb → x ∈ g s → x ∈ kb.foldl (fun acc t => acc ∪ g t) init := by
  intro kb
  induction kb with
  | nil => intro _ _ _ hs; cases hs
  | cons t ts ih =>
    intro init s x hs hx
    rcases List.mem_cons.mp hs with rfl | hs
    · exact mem_foldl_union_init ts _ x (Finset.mem_union_right _ hx)
    · exact ih _ s x hs hx

theorem safe_after_step6 (st3 : MinesweeperAI) (C : Cell)
    (h : Sentence.mk {C} 0 ∈ st3.knowledge) :
    C ∈ ((sortCells
        (st3.knowledge.foldl (fun acc t => acc ∪ t.known_safes) ∅)).foldl
      MinesweeperAI.mark_safe
      ((sortCells
          (st3.knowledge.foldl (fun acc t => acc ∪ t.known_mines) ∅)).foldl
        MinesweeperAI.mark_mine st3)).safes := by
  apply mem_foldl_mark_safe_safes
  apply mem_sortCells.mpr
  exact mem_foldl_union _ _ _ _ h (by simp [Sentence.known_safes])

/-- C1 amended: the call that derives `{C} = 0` only appends it (step 6
propagation has already run by then), but any subsequent `add_knowledge`
call on a knowledge base containing `{C} = 0` puts `C` into `safes`. -/
theorem derived_singleton_safe_next_addK (st : MinesweeperAI) (cell : Cell)
    (count : Int) (C : Cell) (h : Sentence.mk {C} 0 ∈ st.knowledge) :
    C ∈ (st.add_knowledge cell count).safes := by
  by_cases hcC : cell = C
  · subst hcC
    simp only [MinesweeperAI.add_knowledge]
    apply foldl_mark_safe_safes_mono
    rw [foldl_mark_mine_safes]
    split
    · split
      · assumption
      · assumption
    · split
      · rw [mark_safe_safes]
        exact Finset.mem_insert_self _ _
      · rw [mark_safe_safes]
        exact Finset.mem_insert_self _ _
  · simp only [MinesweeperAI.add_knowledge]
    split
    · split
      · exact safe_after_step6 _ C h
      · refine safe_after_step6 _ C (List.mem_append.mpr (Or.inl h))
    · split
      · refine safe_after_step6 _ C ?_
        rw [mark_safe_knowledge]
        exact List.mem_map.mpr ⟨⟨{C}, 0⟩, h,
          by simp [Sentence.mark_safe, Finset.mem_singleton, hcC]⟩
      · refine safe_after_step6 _ C (List.mem_append.mpr (Or.inl ?_))
        rw [mark_safe_knowledge]
        exact List.mem_map.mpr ⟨⟨{C}, 0⟩, h,
          by simp [Sentence.mark_safe, Finset.mem_singleton, hcC]⟩

/-- Counterexample to C1 as stated: with the knowledge base holding
`{(0,1),(1,0),(1,1)} = 1` and `{(0,1),(1,0)} = 1`, the `add_knowledge`
call on `(0,0)` derives `{(1,1)} = 0` by subset inference and runs
propagation — yet `(1,1)` is not in `safes` when the call returns, because
propagation (step 6) runs before subset inference (step 7). -/
theorem subset_inference_same_call_cex :
    Sentence.mk {(1, 1)} 0 ∈
      ((MinesweeperAI.mk 2 2 ∅ ∅ ∅
        [⟨{(0, 1), (1, 0), (1, 1)}, 1⟩, ⟨{(0, 1), (1, 0)}, 1⟩]).add_knowledge
          (0, 0) 1).knowledge ∧
    (1, 1) ∉
      ((MinesweeperAI.mk 2 2 ∅ ∅ ∅
        [⟨{(0, 1), (1, 0), (1, 1)}, 1⟩, ⟨{(0, 1), (1, 0)}, 1⟩]).add_knowledge
          (0, 0) 1).safes := by
  constructor
  · decide
  · decide

/-- Witness for C1 (amended): on the state reached right after the deriving
call of the counterexample scenario, the next `add_knowledge` call marks
`(1,1)` safe. -/
theorem derived_singleton_safe_next_addK_witness :
    (1, 1) ∈ ((MinesweeperAI.mk 2 2 {(0, 0)} ∅ {(0, 0)}
      [⟨{(0, 1), (1, 0), (1, 1)}, 1⟩, ⟨{(0, 1), (1, 0)}, 1⟩,
        ⟨{(1, 1)}, 0⟩]).add_knowledge (0, 0) 1).safes :=
  derived_singleton_safe_next_addK _ (0, 0) 1 (1, 1) (by decide)

/-! ### Claim C5: a zero-count reveal on a fresh engine -/

theorem addK_zero_fresh_neighbours_safe (H W : Nat) (cell n : Cell)
    (hn : n ∈ neighbours H W cell) :
    n ∈ ((initAI H W).add_knowledge cell 0).safes := by
  have hne : n ≠ cell := by
    simp only [neighbours] at hn
    exact Finset.ne_of_mem_erase hn
  simp only [MinesweeperAI.add_knowledge, initAI, MinesweeperAI.mark_safe,
    Finset.not_mem_empty, if_false, List.map_nil, List.not_mem_nil,
    List.nil_append, ite_false, ite_true]
  apply mem_foldl_mark_safe_safes
  apply mem_sortCells.mpr
  refine mem_foldl_union _ _ _ n (List.mem_singleton.mpr rfl) ?_
  have hfilter :
      Finset.filter (fun x => x ∈ (∅ : Finset Cell)) (neighbours H W cell)
        = ∅ := by
    simp
  simp only [Sentence.known_safes, hfilter, Finset.card_empty, Nat.cast_zero,
    sub_zero, ite_true, Finset.mem_sdiff, Finset.mem_filter,
    Finset.not_mem_empty, Finset.mem_insert, Finset.mem_singleton]
  simp [hn, hne]

/-- C5: on a fresh engine, one `add_knowledge(corner, 0)` call puts every
in-bounds neighbour of the corner cell into `safes` before returning. -/
theorem corner_zero_marks_neighbours_safe (H W : Nat) (cell n : Cell)
    (_hcorner : (cell.1 = 0 ∨ cell.1 = H - 1) ∧
      (cell.2 = 0 ∨ cell.2 = W - 1))
    (hn : n ∈ neighbours H W cell) :
    n ∈ ((initAI H W).add_knowledge cell 0).safes :=
  addK_zero_fresh_neighbours_safe H W cell n hn

/-- Witness for C5: the corner `(0,0)` of a 2×2 grid and its diagonal
neighbour `(1,1)`. -/
theorem corner_zero_marks_neighbours_safe_witness :
    (1, 1) ∈ ((initAI 2 2).add_knowledge (0, 0) 0).safes :=
  corner_zero_marks_neighbours_safe 2 2 (0, 0) (1, 1)
    (by decide) (by decide)
